import Mathlib

/-
Verification development for the text-model search core
(src/vs/editor/common/model/textModelSearch.ts).

Texts are embedded as lists of characters; JavaScript string indices become
natural numbers.  The regular-expression engine, the buffer (TextModel) and
the word classifier are external collaborators of this core; they are
modelled from the specification where noted.  Loops of the source are
embedded as fuel-indexed structural recursions so that every definition is
executable.
-/

set_option linter.unusedVariables false

namespace VST

/-- Word character classes produced by the word classifier (the classes
used by the boundary checks of textModelSearch.ts). -/
inductive WordCharacterClass where
  | Regular
  | Whitespace
  | WordSeparator
deriving DecidableEq, Repr

/-- Modelled from the spec: the Word Classifier maps a character to one of
Regular, Whitespace or Separator given the configurable set of separator
characters (spec section 2; the classifier implementation is not part of
this repository slice, only its interface is used by the search core). -/
def getMapForWordSeparators (wordSeparators : List Char) : Char → WordCharacterClass :=
  fun c =>
    if c ∈ wordSeparators then WordCharacterClass.WordSeparator
    else if c = ' ' ∨ c = '\t' then WordCharacterClass.Whitespace
    else WordCharacterClass.Regular

/-- End-of-line style of a buffer. -/
inductive EOL where
  | lf
  | crlf
deriving DecidableEq, Repr

/-- Number of characters of the end-of-line marker. -/
def eolLength : EOL → Nat
  | EOL.lf => 1
  | EOL.crlf => 2

/-- A 1-based (line, column) position. -/
structure Pos where
  line : Nat
  col : Nat
deriving DecidableEq, Repr

/-- A range of two 1-based positions, field names as in Range of the source. -/
structure Rng where
  startLineNumber : Nat
  startColumn : Nat
  endLineNumber : Nat
  endColumn : Nat
deriving DecidableEq, Repr

/-- Modelled from the spec: the external text buffer is an ordered sequence
of lines together with a global end-of-line style (spec sections 3 and 6). -/
structure Model where
  lines : List (List Char)
  eol : EOL
deriving Repr

/-- Placeholder character returned for an out-of-bounds character read. -/
def nullChar : Char := Char.ofNat 0

/-- Buffer interface: total number of lines. -/
def Model.getLineCount (m : Model) : Nat := m.lines.length

/-- Buffer interface: content of the given 1-based line. -/
def Model.getLineContent (m : Model) (lineNumber : Nat) : List Char :=
  m.lines.getD (lineNumber - 1) []

/-- Buffer interface: 1 + character count of the given line. -/
def Model.getLineMaxColumn (m : Model) (lineNumber : Nat) : Nat :=
  (m.getLineContent lineNumber).length + 1

/-- Modelled from the spec: offsetAt, the character offset of a position,
counting one eolLength worth of characters per line break before it
(spec section 6: conversion consistent with endOfLineStyle). -/
def Model.getOffsetAt (m : Model) (p : Pos) : Nat :=
  (((m.lines.take (p.line - 1)).map (fun l => l.length + eolLength m.eol)).sum) + (p.col - 1)

/-- Helper for positionAt: walk the lines, subtracting line lengths. -/
def positionAtAux (el : Nat) : List (List Char) → Nat → Nat → Pos
  | [], offset, line => ⟨line, offset + 1⟩
  | l :: rest, offset, line =>
    if rest = [] then ⟨line, min offset l.length + 1⟩
    else if offset < l.length + el then ⟨line, min offset l.length + 1⟩
    else positionAtAux el rest (offset - (l.length + el)) (line + 1)

/-- Modelled from the spec: positionAt, inverse of offsetAt for in-range
offsets (spec section 6); offsets falling inside a two-character line break
are clamped to the end of that line. -/
def Model.getPositionAt (m : Model) (offset : Nat) : Pos :=
  positionAtAux (eolLength m.eol) m.lines offset 1

/-- Lines of a range, with the first and last line truncated to the range. -/
def sliceLines (m : Model) (r : Rng) : List (List Char) :=
  (List.range (r.endLineNumber + 1 - r.startLineNumber)).map (fun i =>
    let ln := r.startLineNumber + i
    let c := m.getLineContent ln
    let c := if ln = r.endLineNumber then c.take (r.endColumn - 1) else c
    if ln = r.startLineNumber then c.drop (r.startColumn - 1) else c)

/-- Modelled from the spec: valueInRange with line breaks forced to a single
line feed (spec section 6), as used by the multiline strategy. -/
def Model.getValueInRange (m : Model) (r : Rng) : List Char :=
  List.intercalate ['\n'] (sliceLines m r)

/-- A raw match produced by the regular-expression engine: its start index,
the length of group 0, and the captured group strings (group 0 first). -/
structure RawMatch where
  index : Nat
  len : Nat
  groups : List (List Char)
deriving DecidableEq, Repr

/-- Modelled from the spec: the external regular-expression engine behind a
findFrom capability (spec section 9): exec takes the text and the current
lastIndex and returns the next raw match, if any. -/
structure Engine where
  exec : List Char → Nat → Option RawMatch

/-- A well-behaved engine returns matches at or after the given lastIndex
and inside the text. -/
def EngineOk (e : Engine) : Prop :=
  ∀ text last m, e.exec text last = some m →
    last ≤ m.index ∧ m.index + m.len ≤ text.length

/-- Whether pat occurs in text at index i. -/
def isSubAt (pat text : List Char) (i : Nat) : Bool :=
  (text.drop i).take pat.length == pat

/-- First index at or after start where pat occurs in text (the behaviour
of indexOf with a from-index, for a non-empty needle). -/
def indexOfFrom (text pat : List Char) (start : Nat) : Option Nat :=
  (List.range (text.length + 1)).find? (fun i => decide (start ≤ i) && isSubAt pat text i)

/-- Modelled from the spec: the compiled regular expression of a non-regex
request matches the pattern literally (spec section 4.1: all regex
metacharacters are escaped so the pattern matches literally); a global exec
returns the leftmost occurrence at or after lastIndex. -/
def litEngine (pat : List Char) : Engine :=
  ⟨fun text last => (indexOfFrom text pat last).map (fun i => ⟨i, pat.length, [pat]⟩)⟩

/-- Embedding of leftIsWordBounday (textModelSearch.ts, lines 408-429);
out-of-range character reads yield nullChar. -/
def leftIsWordBounday (wordSeparators : Char → WordCharacterClass) (text : List Char)
    (textLength matchStartIndex matchLength : Nat) : Bool :=
  if matchStartIndex = 0 then
    true
  else
    let charBefore := text.getD (matchStartIndex - 1) nullChar
    if wordSeparators charBefore ≠ WordCharacterClass.Regular then
      true
    else if matchLength > 0 then
      let firstCharInMatch := text.getD matchStartIndex nullChar
      decide (wordSeparators firstCharInMatch ≠ WordCharacterClass.Regular)
    else
      false

/-- Embedding of rightIsWordBounday (textModelSearch.ts, lines 431-452). -/
def rightIsWordBounday (wordSeparators : Char → WordCharacterClass) (text : List Char)
    (textLength matchStartIndex matchLength : Nat) : Bool :=
  if matchStartIndex + matchLength = textLength then
    true
  else
    let charAfter := text.getD (matchStartIndex + matchLength) nullChar
    if wordSeparators charAfter ≠ WordCharacterClass.Regular then
      true
    else if matchLength > 0 then
      let lastCharInMatch := text.getD (matchStartIndex + matchLength - 1) nullChar
      decide (wordSeparators lastCharInMatch ≠ WordCharacterClass.Regular)
    else
      false

/-- Embedding of isValidMatch (textModelSearch.ts, lines 454-459). -/
def isValidMatch (wordSeparators : Char → WordCharacterClass) (text : List Char)
    (textLength matchStartIndex matchLength : Nat) : Bool :=
  leftIsWordBounday wordSeparators text textLength matchStartIndex matchLength
    && rightIsWordBounday wordSeparators text textLength matchStartIndex matchLength

/-- Mutable state of a Searcher: the lastIndex cursor of the underlying
global regex plus the previous raw-match memory.  The source initialises
the memory to (-1, 0); that sentinel is represented by none. -/
structure SState where
  lastIndex : Nat
  prev : Option (Nat × Nat)
deriving DecidableEq, Repr

/-- A Searcher wraps the word classifier and the compiled regex
(textModelSearch.ts, lines 461-472). -/
structure MSearcher where
  wordSeparators : Option (Char → WordCharacterClass)
  searchRegex : Engine

/-- Embedding of Searcher.reset (textModelSearch.ts, lines 474-478). -/
def searcherReset (lastIndex : Nat) : SState := ⟨lastIndex, none⟩

/-- Loop body of Searcher.next (textModelSearch.ts, lines 480-511), indexed
by fuel.  A successful exec advances lastIndex to the end of the raw match
(the global-regex cursor semantics of the engine); a failed exec resets it
to 0.  The state is returned alongside the result. -/
def searcherNextLoop (srch : MSearcher) (text : List Char) :
    Nat → SState → Option RawMatch × SState
  | 0, st => (none, st)
  | fuel + 1, st =>
    let textLength := text.length
    if (match st.prev with
        | some (p, l) => p + l == textLength
        | none => false) then
      -- Reached the end of the line
      (none, st)
    else
      match srch.searchRegex.exec text st.lastIndex with
      | none => (none, { st with lastIndex := 0 })
      | some m =>
        let st1 : SState := { st with lastIndex := m.index + m.len }
        if st.prev == some (m.index, m.len) then
          -- Exit early if the regex matches the same range twice
          (none, st1)
        else
          let st2 : SState := { st1 with prev := some (m.index, m.len) }
          match srch.wordSeparators with
          | none => (some m, st2)
          | some ws =>
            if isValidMatch ws text textLength m.index m.len then (some m, st2)
            else searcherNextLoop srch text fuel st2

/-- Embedding of Searcher.next; the fuel 2 * length + 3 dominates the
number of loop iterations possible before the repeat guard fires. -/
def searcherNext (srch : MSearcher) (text : List Char) (st : SState) :
    Option RawMatch × SState :=
  searcherNextLoop srch text (2 * text.length + 3) st

/-- A reported match: a range plus the optional captured group strings
(FindMatch of editorCommon). -/
structure FindMatch where
  range : Rng
  capturedMatches : Option (List (List Char))
deriving DecidableEq, Repr

/-- Embedding of createFindMatch (textModelSearch.ts, lines 119-128). -/
def createFindMatch (range : Rng) (rawMatches : RawMatch) (captureMatches : Bool) : FindMatch :=
  if !captureMatches then ⟨range, none⟩
  else ⟨range, some rawMatches.groups⟩

/-- Embedding of SearchParams._isMultilineRegexSource (textModelSearch.ts,
lines 30-56): scan left to right, a backslash consumes the following
character; report true when that character is n or r. -/
def isMultilineRegexSource : List Char → Bool
  | [] => false
  | c :: rest =>
    if c = '\\' then
      match rest with
      | [] => false
      | next :: rest2 =>
        if next = 'n' ∨ next = 'r' then true else isMultilineRegexSource rest2
    else
      isMultilineRegexSource rest

/-- The searchable metadata of a compiled search request: the engine stands
for the compiled regex, multiline for its multiline flag, and simpleSearch
for the literal fast path string (SearchData, textModelSearch.ts,
lines 97-117). -/
structure SearchDataM where
  searchRegex : Engine
  multiline : Bool
  wordSeparators : Option (Char → WordCharacterClass)
  simpleSearch : Option (List Char)

/-- Result of parseSearchRequest that is expressible without the external
regex object: the multiline flag and the literal fast path eligibility. -/
structure ParsedSearch where
  multiline : Bool
  canUseSimpleSearch : Bool
deriving DecidableEq, Repr

/-- Embedding of the pure part of SearchParams.parseSearchRequest
(textModelSearch.ts, lines 58-94): empty pattern yields none; multiline is
computed from the pattern; the simple-search eligibility follows the case
folding test of the source. -/
def parseSearchRequest (searchString : List Char) (isRegex matchCase : Bool) :
    Option ParsedSearch :=
  if searchString = [] then none
  else
    let multiline :=
      if isRegex then isMultilineRegexSource searchString
      else searchString.contains '\n'
    let canUseSimpleSearch0 := !isRegex && !multiline
    let canUseSimpleSearch :=
      if canUseSimpleSearch0 &&
          (searchString.map Char.toLower != searchString.map Char.toUpper) then
        matchCase
      else canUseSimpleSearch0
    some ⟨multiline, canUseSimpleSearch⟩

/-- LIMIT_FIND_COUNT of textModelSearch.ts, line 15. -/
def LIMIT_FIND_COUNT : Nat := 999

/-- The loop of lines 151-157: count the line feeds strictly before the
match index in the joined text. -/
def lineFeedCountBeforeMatch (text : List Char) (matchIndex : Nat) : Nat :=
  (List.range matchIndex).countP (fun i => text.getD i nullChar == '\n')

/-- The loop of lines 165-171: count the line feeds inside the matched
slice of the joined text. -/
def lineFeedCountInMatch (text : List Char) (matchIndex matchLen : Nat) : Nat :=
  (List.range matchLen).countP (fun i => text.getD (i + matchIndex) nullChar == '\n')

/-- Embedding of TextModelSearch._getMultilineMatchRange
(textModelSearch.ts, lines 148-180). -/
def getMultilineMatchRange (model : Model) (deltaOffset : Nat) (text : List Char)
    (matchIndex matchLen : Nat) : Rng :=
  let startOffset :=
    if model.eol = EOL.crlf then
      deltaOffset + matchIndex + lineFeedCountBeforeMatch text matchIndex
    else
      deltaOffset + matchIndex
  let endOffset :=
    if model.eol = EOL.crlf then
      startOffset + matchLen + lineFeedCountInMatch text matchIndex matchLen
    else
      startOffset + matchLen
  let startPosition := model.getPositionAt startOffset
  let endPosition := model.getPositionAt endOffset
  ⟨startPosition.line, startPosition.col, endPosition.line, endPosition.col⟩

/-- Loop of TextModelSearch._doFindMatchesMultiline (lines 192-199),
indexed by fuel; the accumulated result list is threaded through. -/
def doFindMatchesMultilineLoop (model : Model) (srch : MSearcher) (deltaOffset : Nat)
    (text : List Char) (captureMatches : Bool) (limitResultCount : Nat) :
    Nat → SState → List FindMatch → List FindMatch
  | 0, _, result => result
  | fuel + 1, st, result =>
    match searcherNext srch text st with
    | (none, _) => result
    | (some m, st1) =>
      let result := result ++
        [createFindMatch (getMultilineMatchRange model deltaOffset text m.index m.len)
          m captureMatches]
      if result.length ≥ limitResultCount then result
      else doFindMatchesMultilineLoop model srch deltaOffset text captureMatches
        limitResultCount fuel st1 result

/-- Embedding of TextModelSearch._doFindMatchesMultiline
(textModelSearch.ts, lines 182-202). -/
def doFindMatchesMultiline (model : Model) (searchRange : Rng) (srch : MSearcher)
    (captureMatches : Bool) (limitResultCount : Nat) : List FindMatch :=
  let deltaOffset := model.getOffsetAt ⟨searchRange.startLineNumber, searchRange.startColumn⟩
  let text := model.getValueInRange searchRange
  doFindMatchesMultilineLoop model srch deltaOffset text captureMatches limitResultCount
    (text.length + limitResultCount + 2) (searcherReset 0) []

/-- Loop of the literal fast path of TextModelSearch._findMatchesInLine
(lines 240-248), indexed by fuel; lastMatchIndex + searchStringLen of the
source is the from-index argument. -/
def simpleSearchLoop (wordSeparators : Option (Char → WordCharacterClass))
    (searchString text : List Char) (lineNumber deltaOffset limitResultCount : Nat) :
    Nat → Nat → List FindMatch → List FindMatch
  | 0, _, result => result
  | fuel + 1, fromIndex, result =>
    match indexOfFrom text searchString fromIndex with
    | none => result
    | some lastMatchIndex =>
      let ok :=
        match wordSeparators with
        | none => true
        | some ws => isValidMatch ws text text.length lastMatchIndex searchString.length
      if ok then
        let result := result ++
          [⟨⟨lineNumber, lastMatchIndex + 1 + deltaOffset,
             lineNumber, lastMatchIndex + 1 + searchString.length + deltaOffset⟩, none⟩]
        if result.length ≥ limitResultCount then result
        else simpleSearchLoop wordSeparators searchString text lineNumber deltaOffset
          limitResultCount fuel (lastMatchIndex + searchString.length) result
      else
        simpleSearchLoop wordSeparators searchString text lineNumber deltaOffset
          limitResultCount fuel (lastMatchIndex + searchString.length) result

/-- Loop of the regex path of TextModelSearch._findMatchesInLine
(lines 252-265), indexed by fuel. -/
def regexSearchLoop (srch : MSearcher) (text : List Char)
    (lineNumber deltaOffset : Nat) (captureMatches : Bool) (limitResultCount : Nat) :
    Nat → SState → List FindMatch → List FindMatch
  | 0, _, result => result
  | fuel + 1, st, result =>
    match searcherNext srch text st with
    | (none, _) => result
    | (some m, st1) =>
      let result := result ++
        [createFindMatch
          ⟨lineNumber, m.index + 1 + deltaOffset, lineNumber, m.index + 1 + m.len + deltaOffset⟩
          m captureMatches]
      if result.length ≥ limitResultCount then result
      else regexSearchLoop srch text lineNumber deltaOffset captureMatches
        limitResultCount fuel st1 result

/-- Embedding of TextModelSearch._findMatchesInLine (textModelSearch.ts,
lines 233-266): the literal fast path is taken when simpleSearch is set and
captures are not requested, otherwise a fresh Searcher scans with the regex. -/
def findMatchesInLine (searchData : SearchDataM) (text : List Char)
    (lineNumber deltaOffset : Nat) (result : List FindMatch)
    (captureMatches : Bool) (limitResultCount : Nat) : List FindMatch :=
  match captureMatches, searchData.simpleSearch with
  | false, some searchString =>
    simpleSearchLoop searchData.wordSeparators searchString text lineNumber deltaOffset
      limitResultCount (text.length + limitResultCount + 2) 0 result
  | _, _ =>
    regexSearchLoop ⟨searchData.wordSeparators, searchData.searchRegex⟩ text lineNumber
      deltaOffset captureMatches limitResultCount (text.length + limitResultCount + 2)
      (searcherReset 0) result

/-- Middle-lines loop of TextModelSearch._doFindMatchesLineByLine
(lines 220-222): iterate while lines remain and the limit is not reached. -/
def doFindMatchesLineByLineMiddle (model : Model) (searchData : SearchDataM)
    (captureMatches : Bool) (limitResultCount : Nat) :
    Nat → Nat → List FindMatch → List FindMatch
  | 0, _, result => result
  | remaining + 1, lineNumber, result =>
    if result.length < limitResultCount then
      let result := findMatchesInLine searchData (model.getLineContent lineNumber)
        lineNumber 0 result captureMatches limitResultCount
      doFindMatchesLineByLineMiddle model searchData captureMatches limitResultCount
        remaining (lineNumber + 1) result
    else result

/-- Embedding of TextModelSearch._doFindMatchesLineByLine
(textModelSearch.ts, lines 204-231). -/
def doFindMatchesLineByLine (model : Model) (searchRange : Rng) (searchData : SearchDataM)
    (captureMatches : Bool) (limitResultCount : Nat) : List FindMatch :=
  if searchRange.startLineNumber = searchRange.endLineNumber then
    let text := ((model.getLineContent searchRange.startLineNumber).take
      (searchRange.endColumn - 1)).drop (searchRange.startColumn - 1)
    findMatchesInLine searchData text searchRange.startLineNumber
      (searchRange.startColumn - 1) [] captureMatches limitResultCount
  else
    let text := (model.getLineContent searchRange.startLineNumber).drop
      (searchRange.startColumn - 1)
    let result := findMatchesInLine searchData text searchRange.startLineNumber
      (searchRange.startColumn - 1) [] captureMatches limitResultCount
    let result := doFindMatchesLineByLineMiddle model searchData captureMatches
      limitResultCount (searchRange.endLineNumber - 1 - searchRange.startLineNumber)
      (searchRange.startLineNumber + 1) result
    if result.length < limitResultCount then
      let text := (model.getLineContent searchRange.endLineNumber).take
        (searchRange.endColumn - 1)
      findMatchesInLine searchData text searchRange.endLineNumber 0 result
        captureMatches limitResultCount
    else result

/-- Embedding of TextModelSearch.findMatches (textModelSearch.ts,
lines 132-142), given an already compiled search. -/
def findMatchesWithData (model : Model) (searchData : SearchDataM) (searchRange : Rng)
    (captureMatches : Bool) (limitResultCount : Nat) : List FindMatch :=
  if searchData.multiline then
    doFindMatchesMultiline model searchRange
      ⟨searchData.wordSeparators, searchData.searchRegex⟩ captureMatches limitResultCount
  else
    doFindMatchesLineByLine model searchRange searchData captureMatches limitResultCount

/-- Single forward pass of TextModelSearch._doFindNextMatchMultiline
(textModelSearch.ts, lines 282-298): scan the joined text from the start
line to the end of the buffer, with the searcher reset to column - 1. -/
def nextPassMultiline (model : Model) (srch : MSearcher) (captureMatches : Bool)
    (searchStart : Pos) : Option FindMatch :=
  let searchTextStart : Pos := ⟨searchStart.line, 1⟩
  let deltaOffset := model.getOffsetAt searchTextStart
  let lineCount := model.getLineCount
  let text := model.getValueInRange
    ⟨searchTextStart.line, searchTextStart.col, lineCount, model.getLineMaxColumn lineCount⟩
  match searcherNext srch text (searcherReset (searchStart.col - 1)) with
  | (some m, _) =>
    some (createFindMatch (getMultilineMatchRange model deltaOffset text m.index m.len)
      m captureMatches)
  | (none, _) => none

/-- Embedding of TextModelSearch._doFindNextMatchMultiline
(textModelSearch.ts, lines 282-306).  The source recurses once with the
position (1,1) guarded by the test of line 300; the recursion depth is
therefore at most 2, which the fuel makes structural. -/
def doFindNextMatchMultilineAux (model : Model) (srch : MSearcher) (captureMatches : Bool) :
    Nat → Pos → Option FindMatch
  | 0, _ => none
  | fuel + 1, searchStart =>
    match nextPassMultiline model srch captureMatches searchStart with
    | some r => some r
    | none =>
      if searchStart.line ≠ 1 ∨ searchStart.col ≠ 1 then
        -- Try again from the top
        doFindNextMatchMultilineAux model srch captureMatches fuel ⟨1, 1⟩
      else
        none

/-- Top entry of the multiline next-match search. -/
def doFindNextMatchMultiline (model : Model) (srch : MSearcher) (captureMatches : Bool)
    (searchStart : Pos) : Option FindMatch :=
  doFindNextMatchMultilineAux model srch captureMatches 2 searchStart

/-- Embedding of TextModelSearch._findFirstMatchInLine (textModelSearch.ts,
lines 331-343). -/
def findFirstMatchInLine (srch : MSearcher) (text : List Char)
    (lineNumber fromColumn : Nat) (captureMatches : Bool) : Option FindMatch :=
  match searcherNext srch text (searcherReset (fromColumn - 1)) with
  | (some m, _) =>
    some (createFindMatch ⟨lineNumber, m.index + 1, lineNumber, m.index + 1 + m.len⟩
      m captureMatches)
  | (none, _) => none

/-- Loop of TextModelSearch._doFindNextMatchLineByLine (lines 319-326):
the counter i runs from 1 to lineCount, visiting lines cyclically. -/
def nextLineByLineLoop (model : Model) (srch : MSearcher) (captureMatches : Bool)
    (lineCount startLineNumber : Nat) : Nat → Nat → Option FindMatch
  | _, 0 => none
  | i, remaining + 1 =>
    let lineIndex := (startLineNumber + i - 1) % lineCount
    match findFirstMatchInLine srch (model.getLineContent (lineIndex + 1))
        (lineIndex + 1) 1 captureMatches with
    | some r => some r
    | none =>
      nextLineByLineLoop model srch captureMatches lineCount startLineNumber (i + 1) remaining

/-- Embedding of TextModelSearch._doFindNextMatchLineByLine
(textModelSearch.ts, lines 308-329). -/
def doFindNextMatchLineByLine (model : Model) (srch : MSearcher) (captureMatches : Bool)
    (searchStart : Pos) : Option FindMatch :=
  let lineCount := model.getLineCount
  let startLineNumber := searchStart.line
  let text := model.getLineContent startLineNumber
  match findFirstMatchInLine srch text startLineNumber searchStart.col captureMatches with
  | some r => some r
  | none =>
    nextLineByLineLoop model srch captureMatches lineCount startLineNumber 1 lineCount

/-- Embedding of TextModelSearch.findNextMatch (textModelSearch.ts,
lines 268-280), given an already compiled search. -/
def findNextMatchWithData (model : Model) (searchData : SearchDataM) (searchStart : Pos)
    (captureMatches : Bool) : Option FindMatch :=
  let srch : MSearcher := ⟨searchData.wordSeparators, searchData.searchRegex⟩
  if searchData.multiline then
    doFindNextMatchMultiline model srch captureMatches searchStart
  else
    doFindNextMatchLineByLine model srch captureMatches searchStart

/-- Single backward pass of TextModelSearch._doFindPreviousMatchMultiline
(textModelSearch.ts, lines 360-363): collect every match before the start
position with the internal safety cap and keep the last one. -/
def prevPassMultiline (model : Model) (srch : MSearcher) (captureMatches : Bool)
    (searchStart : Pos) : Option FindMatch :=
  (doFindMatchesMultiline model ⟨1, 1, searchStart.line, searchStart.col⟩ srch
    captureMatches (10 * LIMIT_FIND_COUNT)).getLast?

/-- Embedding of TextModelSearch._doFindPreviousMatchMultiline
(textModelSearch.ts, lines 359-372); as for the forward search the single
guarded retry makes the recursion depth at most 2. -/
def doFindPreviousMatchMultilineAux (model : Model) (srch : MSearcher)
    (captureMatches : Bool) : Nat → Pos → Option FindMatch
  | 0, _ => none
  | fuel + 1, searchStart =>
    match prevPassMultiline model srch captureMatches searchStart with
    | some r => some r
    | none =>
      let lineCount := model.getLineCount
      if searchStart.line ≠ lineCount ∨ searchStart.col ≠ model.getLineMaxColumn lineCount then
        -- Try again with all content
        doFindPreviousMatchMultilineAux model srch captureMatches fuel
          ⟨lineCount, model.getLineMaxColumn lineCount⟩
      else
        none

/-- Top entry of the multiline previous-match search. -/
def doFindPreviousMatchMultiline (model : Model) (srch : MSearcher) (captureMatches : Bool)
    (searchStart : Pos) : Option FindMatch :=
  doFindPreviousMatchMultilineAux model srch captureMatches 2 searchStart

/-- Loop of TextModelSearch._findLastMatchInLine (lines 397-405), indexed
by fuel: keep the last match produced by the searcher. -/
def findLastMatchInLineLoop (srch : MSearcher) (text : List Char) (lineNumber : Nat)
    (captureMatches : Bool) : Nat → SState → Option FindMatch → Option FindMatch
  | 0, _, bestResult => bestResult
  | fuel + 1, st, bestResult =>
    match searcherNext srch text st with
    | (none, _) => bestResult
    | (some m, st1) =>
      findLastMatchInLineLoop srch text lineNumber captureMatches fuel st1
        (some (createFindMatch ⟨lineNumber, m.index + 1, lineNumber, m.index + 1 + m.len⟩
          m captureMatches))

/-- Embedding of TextModelSearch._findLastMatchInLine (textModelSearch.ts,
lines 397-405). -/
def findLastMatchInLine (srch : MSearcher) (text : List Char) (lineNumber : Nat)
    (captureMatches : Bool) : Option FindMatch :=
  findLastMatchInLineLoop srch text lineNumber captureMatches (2 * text.length + 3)
    (searcherReset 0) none

/-- Loop of TextModelSearch._doFindPreviousMatchLineByLine (lines 385-392):
the counter i runs from 1 to lineCount, walking the lines backward
cyclically. -/
def prevLineByLineLoop (model : Model) (srch : MSearcher) (captureMatches : Bool)
    (lineCount startLineNumber : Nat) : Nat → Nat → Option FindMatch
  | _, 0 => none
  | i, remaining + 1 =>
    let lineIndex := (lineCount + startLineNumber - i - 1) % lineCount
    match findLastMatchInLine srch (model.getLineContent (lineIndex + 1))
        (lineIndex + 1) captureMatches with
    | some r => some r
    | none =>
      prevLineByLineLoop model srch captureMatches lineCount startLineNumber (i + 1) remaining

/-- Embedding of TextModelSearch._doFindPreviousMatchLineByLine
(textModelSearch.ts, lines 374-395). -/
def doFindPreviousMatchLineByLine (model : Model) (srch : MSearcher) (captureMatches : Bool)
    (searchStart : Pos) : Option FindMatch :=
  let lineCount := model.getLineCount
  let startLineNumber := searchStart.line
  let text := (model.getLineContent startLineNumber).take (searchStart.col - 1)
  match findLastMatchInLine srch text startLineNumber captureMatches with
  | some r => some r
  | none =>
    prevLineByLineLoop model srch captureMatches lineCount startLineNumber 1 lineCount

/-- Embedding of TextModelSearch.findPreviousMatch (textModelSearch.ts,
lines 345-357), given an already compiled search. -/
def findPreviousMatchWithData (model : Model) (searchData : SearchDataM) (searchStart : Pos)
    (captureMatches : Bool) : Option FindMatch :=
  let srch : MSearcher := ⟨searchData.wordSeparators, searchData.searchRegex⟩
  if searchData.multiline then
    doFindPreviousMatchMultiline model srch captureMatches searchStart
  else
    doFindPreviousMatchLineByLine model srch captureMatches searchStart

/-- The left boundary test, characterised. -/
theorem leftIsWordBounday_iff (ws : Char → WordCharacterClass) (t : List Char)
    (n i L : Nat) :
    leftIsWordBounday ws t n i L = true ↔
      (i = 0 ∨ ws (t.getD (i - 1) nullChar) ≠ WordCharacterClass.Regular ∨
        (0 < L ∧ ws (t.getD i nullChar) ≠ WordCharacterClass.Regular)) := by
  unfold leftIsWordBounday
  split_ifs with h1 h2 <;> simp_all

/-- The right boundary test, characterised. -/
theorem rightIsWordBounday_iff (ws : Char → WordCharacterClass) (t : List Char)
    (n i L : Nat) :
    rightIsWordBounday ws t n i L = true ↔
      (i + L = n ∨ ws (t.getD (i + L) nullChar) ≠ WordCharacterClass.Regular ∨
        (0 < L ∧ ws (t.getD (i + L - 1) nullChar) ≠ WordCharacterClass.Regular)) := by
  unfold rightIsWordBounday
  split_ifs with h1 h2 <;> simp_all

/-- Claim C2: with a configured word classifier, a raw match at start index
i of length L in a text t of length n is accepted (isValidMatch) exactly
when both edges are word boundaries, with the edges characterised as in the
source: the left edge is a boundary iff i = 0, or the character at i - 1 is
not Regular, or L > 0 and the character at i is not Regular; the right edge
is a boundary iff i + L = n, or the character at i + L is not Regular, or
L > 0 and the character at i + L - 1 is not Regular.  A zero-length match
at the very start (resp. end) of the text trivially satisfies the left
(resp. right) edge. -/
theorem c2_word_boundary_accept (ws : Char → WordCharacterClass) (t : List Char) (i L : Nat) :
    (isValidMatch ws t t.length i L = true ↔
      ((i = 0 ∨ ws (t.getD (i - 1) nullChar) ≠ WordCharacterClass.Regular ∨
          (0 < L ∧ ws (t.getD i nullChar) ≠ WordCharacterClass.Regular)) ∧
        (i + L = t.length ∨ ws (t.getD (i + L) nullChar) ≠ WordCharacterClass.Regular ∨
          (0 < L ∧ ws (t.getD (i + L - 1) nullChar) ≠ WordCharacterClass.Regular)))) ∧
    (i = 0 → leftIsWordBounday ws t t.length i L = true) ∧
    (i + L = t.length → rightIsWordBounday ws t t.length i L = true) := by
  refine ⟨?_, ?_, ?_⟩
  · rw [isValidMatch, Bool.and_eq_true, leftIsWordBounday_iff, rightIsWordBounday_iff]
  · intro h
    rw [leftIsWordBounday_iff]
    exact Or.inl h
  · intro h
    rw [rightIsWordBounday_iff]
    exact Or.inl h

/-- Witness for C2 at concrete inputs: the standalone word is accepted, a
zero-length match at the start satisfies the left edge and one at the end
satisfies the right edge. -/
theorem c2_word_boundary_accept_witness :
    isValidMatch (getMapForWordSeparators [' ']) ['c', 'a', 't'] 3 0 3 = true ∧
    leftIsWordBounday (getMapForWordSeparators [' ']) ['c', 'a', 't'] 3 0 0 = true ∧
    rightIsWordBounday (getMapForWordSeparators [' ']) ['c', 'a', 't'] 3 3 0 = true := by
  refine ⟨?_, ?_, ?_⟩
  · exact (c2_word_boundary_accept (getMapForWordSeparators [' ']) ['c', 'a', 't'] 0 3).1.mpr
      (by decide)
  · exact (c2_word_boundary_accept (getMapForWordSeparators [' ']) ['c', 'a', 't'] 0 0).2.1 rfl
  · exact (c2_word_boundary_accept (getMapForWordSeparators [' ']) ['c', 'a', 't'] 3 0).2.2
      (by decide)

/-- Number of consecutive backslashes at the end of a list. -/
def trailingBackslashes (u : List Char) : Nat :=
  (u.reverse.takeWhile (fun c => c = '\\')).length

/-- Spec-side predicate of claim C6, following its words: the pattern
contains the character n or r immediately after a backslash that is itself
not escaped, i.e. a backslash preceded by an even number of consecutive
backslashes (an odd-positioned backslash of its run, counting from 1). -/
def MultilineRegexPred (s : List Char) : Prop :=
  ∃ u c v, s = u ++ '\\' :: c :: v ∧ (c = 'n' ∨ c = 'r') ∧
    Even (trailingBackslashes u)

/-- Length of takeWhile is at most the length of the list. -/
theorem takeWhileLengthLe (p : Char → Bool) : ∀ l : List Char,
    (l.takeWhile p).length ≤ l.length
  | [] => le_refl _
  | c :: l => by
    rw [List.takeWhile]
    cases p c with
    | true => simpa using takeWhileLengthLe p l
    | false => simp

/-- Length of takeWhile over an appended singleton. -/
theorem takeWhileAppendSingleton (p : Char → Bool) (x : Char) : ∀ A : List Char,
    ((A ++ [x]).takeWhile p).length =
      if (A.takeWhile p).length = A.length ∧ p x then A.length + 1
      else (A.takeWhile p).length
  | [] => by
    cases hx : p x <;> simp [List.takeWhile, hx]
  | a :: A => by
    have ih := takeWhileAppendSingleton p x A
    by_cases hx : p x = true
    · cases ha : p a with
      | false => simp [List.takeWhile_cons, ha]
      | true =>
        simp only [List.cons_append, List.takeWhile_cons, ha, if_true, List.length_cons]
        rw [ih]
        simp only [hx, and_true] at *
        split_ifs with h1 h2 h3 <;> omega
    · simp only [Bool.not_eq_true] at hx
      cases ha : p a with
      | false => simp [List.takeWhile_cons, ha]
      | true =>
        simp only [List.cons_append, List.takeWhile_cons, ha, if_true, List.length_cons]
        rw [ih]
        simp [hx]

/-- Step lemma: prepending a character to a list either extends an
all-backslash list or leaves the trailing run unchanged. -/
theorem trailingBackslashes_cons (x : Char) (u : List Char) :
    trailingBackslashes (x :: u) =
      if trailingBackslashes u = u.length ∧ x = '\\' then u.length + 1
      else trailingBackslashes u := by
  unfold trailingBackslashes
  rw [List.reverse_cons, takeWhileAppendSingleton]
  simp [List.length_reverse]

/-- Prepending a non-backslash character keeps the trailing run. -/
theorem trailingBackslashes_cons_ne (x : Char) (u : List Char) (hx : x ≠ '\\') :
    trailingBackslashes (x :: u) = trailingBackslashes u := by
  rw [trailingBackslashes_cons, if_neg]
  intro h
  exact hx h.2

/-- Prepending a backslash and a further character preserves the parity of
the trailing backslash run. -/
theorem trailingBackslashes_bs_parity (b : Char) (u : List Char) :
    (Even (trailingBackslashes ('\\' :: b :: u)) ↔ Even (trailingBackslashes u)) := by
  have hle : trailingBackslashes u ≤ u.length := by
    unfold trailingBackslashes
    simpa [List.length_reverse] using takeWhileLengthLe (fun c => c = '\\') u.reverse
  by_cases hb : b = '\\'
  · by_cases hu : trailingBackslashes u = u.length
    · have h1 : trailingBackslashes (b :: u) = u.length + 1 := by
        rw [trailingBackslashes_cons, if_pos ⟨hu, hb⟩]
      have h2 : trailingBackslashes ('\\' :: b :: u) = u.length + 2 := by
        rw [trailingBackslashes_cons, if_pos ⟨by simp [h1], rfl⟩, List.length_cons]
      rw [h2, ← hu, Nat.even_iff, Nat.even_iff]
      omega
    · have h1 : trailingBackslashes (b :: u) = trailingBackslashes u := by
        rw [trailingBackslashes_cons, if_neg (fun h => hu h.1)]
      have h2 : trailingBackslashes ('\\' :: b :: u) = trailingBackslashes (b :: u) := by
        rw [trailingBackslashes_cons, if_neg (fun h => by
          have := h.1
          rw [h1, List.length_cons] at this
          omega)]
      rw [h2, h1]
  · have h1 : trailingBackslashes (b :: u) = trailingBackslashes u := by
      rw [trailingBackslashes_cons, if_neg (fun h => hb h.2)]
    have h2 : trailingBackslashes ('\\' :: b :: u) = trailingBackslashes (b :: u) := by
      rw [trailingBackslashes_cons, if_neg (fun h => by
        have := h.1
        rw [h1, List.length_cons] at this
        omega)]
    rw [h2, h1]

/-- The empty pattern has no multiline escape. -/
theorem multilineRegexPred_nil : ¬ MultilineRegexPred [] := by
  rintro ⟨u, c, v, h, -, -⟩
  simp at h

/-- A single backslash has no multiline escape. -/
theorem multilineRegexPred_bs_singleton : ¬ MultilineRegexPred ['\\'] := by
  rintro ⟨u, c, v, h, -, -⟩
  cases u with
  | nil => simp at h
  | cons a u2 => simp at h

/-- Peeling a non-backslash head preserves the predicate. -/
theorem multilineRegexPred_cons (c : Char) (rest : List Char) (hc : c ≠ '\\') :
    MultilineRegexPred (c :: rest) ↔ MultilineRegexPred rest := by
  constructor
  · rintro ⟨u, d, v, h, hd, he⟩
    cases u with
    | nil =>
      simp only [List.nil_append, List.cons.injEq] at h
      exact absurd h.1 hc
    | cons a u2 =>
      simp only [List.cons_append, List.cons.injEq] at h
      refine ⟨u2, d, v, h.2, hd, ?_⟩
      rw [← trailingBackslashes_cons_ne a u2 (h.1 ▸ hc)]
      exact he
  · rintro ⟨u, d, v, h, hd, he⟩
    refine ⟨c :: u, d, v, by rw [h, List.cons_append], hd, ?_⟩
    rw [trailingBackslashes_cons_ne c u hc]
    exact he

/-- The predicate holds as soon as a backslash is followed by n or r with
no preceding backslash run of odd length; in particular at the head. -/
theorem multilineRegexPred_bs_nr (c : Char) (rest : List Char) (hc : c = 'n' ∨ c = 'r') :
    MultilineRegexPred ('\\' :: c :: rest) :=
  ⟨[], c, rest, rfl, hc, by simp [trailingBackslashes, List.takeWhile]⟩

/-- Peeling a backslash together with the escaped character (not n and not
r) preserves the predicate. -/
theorem multilineRegexPred_bs_other (c : Char) (rest : List Char)
    (hc : ¬(c = 'n' ∨ c = 'r')) :
    MultilineRegexPred ('\\' :: c :: rest) ↔ MultilineRegexPred rest := by
  constructor
  · rintro ⟨u, d, v, h, hd, he⟩
    cases u with
    | nil =>
      simp only [List.nil_append, List.cons.injEq] at h
      exact absurd (h.2.1 ▸ hd) hc
    | cons a u2 =>
      simp only [List.cons_append, List.cons.injEq] at h
      cases u2 with
      | nil =>
        simp only [List.nil_append, List.cons.injEq] at h
        exfalso
        have : trailingBackslashes [a] = 1 := by
          rw [← h.1]
          simp [trailingBackslashes, List.takeWhile]
        rw [this] at he
        exact (Nat.not_even_iff.mpr rfl) he
      | cons b u3 =>
        simp only [List.cons_append, List.cons.injEq] at h
        refine ⟨u3, d, v, h.2.2, hd, ?_⟩
        rw [← trailingBackslashes_bs_parity b u3, h.1]
        exact he
  · rintro ⟨u, d, v, h, hd, he⟩
    refine ⟨'\\' :: c :: u, d, v, by rw [h]; simp, hd, ?_⟩
    rw [trailingBackslashes_bs_parity c u]
    exact he

/-- The scan of the source agrees with the spec-side predicate. -/
theorem isMultilineRegexSource_iff : ∀ s : List Char,
    isMultilineRegexSource s = true ↔ MultilineRegexPred s
  | [] => by
    constructor
    · intro h
      simp [isMultilineRegexSource] at h
    · intro h
      exact absurd h multilineRegexPred_nil
  | c :: rest => by
    by_cases hc : c = '\\'
    · subst hc
      cases rest with
      | nil =>
        constructor
        · intro h
          simp [isMultilineRegexSource] at h
        · intro h
          exact absurd h multilineRegexPred_bs_singleton
      | cons next rest2 =>
        by_cases hnr : next = 'n' ∨ next = 'r'
        · constructor
          · intro _
            exact multilineRegexPred_bs_nr next rest2 hnr
          · intro _
            rcases hnr with h | h <;> subst h <;> simp [isMultilineRegexSource]
        · have hstep : isMultilineRegexSource ('\\' :: next :: rest2) =
              isMultilineRegexSource rest2 := by
            simp [isMultilineRegexSource, hnr]
          rw [hstep, multilineRegexPred_bs_other next rest2 hnr]
          exact isMultilineRegexSource_iff rest2
    · have hstep : isMultilineRegexSource (c :: rest) = isMultilineRegexSource rest := by
        rw [isMultilineRegexSource.eq_def]
        simp [hc]
      rw [hstep, multilineRegexPred_cons c rest hc]
      exact isMultilineRegexSource_iff rest

/-- Claim C6: parseSearchRequest determines the multiline flag exactly as
follows: for a regex request, multiline holds iff the pattern contains n or
r immediately after an unescaped backslash (one preceded by an even number
of consecutive backslashes); for a non-regex request, multiline holds iff
the pattern contains a literal newline character. -/
theorem c6_parse_multiline (s : List Char) :
    (isMultilineRegexSource s = true ↔ MultilineRegexPred s) ∧
    (s.contains '\n' = true ↔ '\n' ∈ s) ∧
    (∀ isRegex matchCase p, parseSearchRequest s isRegex matchCase = some p →
      (p.multiline = true ↔ if isRegex then MultilineRegexPred s else '\n' ∈ s)) := by
  refine ⟨isMultilineRegexSource_iff s, by simp [List.contains], ?_⟩
  intro isRegex matchCase p hp
  unfold parseSearchRequest at hp
  by_cases hs : s = []
  · rw [if_pos hs] at hp
    exact absurd hp (by simp)
  · rw [if_neg hs] at hp
    simp only [Option.some.injEq] at hp
    have hm : p.multiline =
        (if isRegex then isMultilineRegexSource s else s.contains '\n') := by
      rw [← hp]
    rw [hm]
    cases isRegex with
    | true => simpa using isMultilineRegexSource_iff s
    | false => simp [List.contains]

/-- Witness for C6: the pattern a backslash-n b compiled as a regex is
recognised as multiline, and the corresponding spec predicate holds. -/
theorem c6_parse_multiline_witness :
    MultilineRegexPred ['a', '\\', 'n', 'b'] := by
  have h := (c6_parse_multiline ['a', '\\', 'n', 'b']).2.2 true true
    ⟨true, false⟩ (by rfl)
  simpa using h.mp rfl

/-- A successful searcher step records the returned match as the new
previous-match memory and leaves lastIndex at the match end. -/
theorem searcherNextLoop_state (srch : MSearcher) (text : List Char) : ∀ fuel st m st1,
    searcherNextLoop srch text fuel st = (some m, st1) →
    st1.prev = some (m.index, m.len) ∧ st1.lastIndex = m.index + m.len
  | 0, st, m, st1 => by
    intro h
    simp [searcherNextLoop] at h
  | fuel + 1, st, m, st1 => by
    intro h
    rw [searcherNextLoop] at h
    split at h
    · simp at h
    · split at h
      · simp at h
      · rename_i m0 hm0
        split at h
        · simp at h
        · split at h
          · rw [Prod.mk.injEq] at h
            obtain ⟨h1, h2⟩ := h
            obtain rfl := Option.some.inj h1
            exact ⟨by rw [← h2], by rw [← h2]⟩
          · split at h
            · rw [Prod.mk.injEq] at h
              obtain ⟨h1, h2⟩ := h
              obtain rfl := Option.some.inj h1
              exact ⟨by rw [← h2], by rw [← h2]⟩
            · exact searcherNextLoop_state srch text fuel _ m st1 h

/-- For a well-behaved engine a successful searcher step never returns a
match before the scan cursor. -/
theorem searcherNextLoop_mono (srch : MSearcher) (text : List Char)
    (hok : EngineOk srch.searchRegex) : ∀ fuel st m st1,
    searcherNextLoop srch text fuel st = (some m, st1) →
    st.lastIndex ≤ m.index
  | 0, st, m, st1 => by
    intro h
    simp [searcherNextLoop] at h
  | fuel + 1, st, m, st1 => by
    intro h
    rw [searcherNextLoop] at h
    split at h
    · simp at h
    · split at h
      · simp at h
      · rename_i m0 hm0
        split at h
        · simp at h
        · split at h
          · rw [Prod.mk.injEq] at h
            obtain ⟨h1, h2⟩ := h
            obtain rfl := Option.some.inj h1
            exact (hok _ _ _ hm0).1
          · split at h
            · rw [Prod.mk.injEq] at h
              obtain ⟨h1, h2⟩ := h
              obtain rfl := Option.some.inj h1
              exact (hok _ _ _ hm0).1
            · have hrec := searcherNextLoop_mono srch text hok fuel _ m st1 h
              have hm0le := (hok _ _ _ hm0).1
              simp only at hrec
              omega

/-- The literal engine is well behaved. -/
theorem litEngineOk (pat : List Char) : EngineOk (litEngine pat) := by
  intro text last m hm
  unfold litEngine at hm
  cases hidx : indexOfFrom text pat last with
  | none => simp [hidx] at hm
  | some i =>
    simp only [hidx, Option.map_some] at hm
    obtain rfl := Option.some.inj hm
    unfold indexOfFrom at hidx
    have hp := List.find?_some hidx
    have hmem := List.mem_of_find?_eq_some hidx
    rw [List.mem_range] at hmem
    rw [Bool.and_eq_true, decide_eq_true_iff] at hp
    obtain ⟨hle, hsub⟩ := hp
    unfold isSubAt at hsub
    rw [beq_iff_eq] at hsub
    have hlen := congrArg List.length hsub
    rw [List.length_take, List.length_drop] at hlen
    simp only
    omega

/-- Claim C5: the searcher never returns two consecutive raw matches with
identical start offset and length.  First conjunct: when the engine
produces a match whose start and length equal those of the immediately
preceding raw match since the last reset, next returns null for this text.
Second conjunct: two consecutive successful calls to next return matches of
different (start, length) shape, so that scanning of a text chunk always
makes progress and terminates. -/
theorem c5_searcher_repeat_guard (srch : MSearcher) (text : List Char) (st : SState)
    (hok : EngineOk srch.searchRegex) :
    (∀ m, srch.searchRegex.exec text st.lastIndex = some m →
      st.prev = some (m.index, m.len) → (searcherNext srch text st).1 = none) ∧
    (∀ m st1 m2 st2, searcherNext srch text st = (some m, st1) →
      searcherNext srch text st1 = (some m2, st2) →
      (m2.index, m2.len) ≠ (m.index, m.len)) := by
  constructor
  · intro m hm hprev
    have hfuel : 2 * text.length + 3 = (2 * text.length + 2) + 1 := rfl
    rw [searcherNext, hfuel, searcherNextLoop]
    split
    · rfl
    · rw [hm]
      simp only [hprev]
      rw [if_pos (by simp)]
  · intro m st1 m2 st2 h1 h2
    obtain ⟨hprev1, hlast1⟩ := searcherNextLoop_state srch text _ st m st1 h1
    have hfuel : 2 * text.length + 3 = (2 * text.length + 2) + 1 := rfl
    rw [searcherNext, hfuel, searcherNextLoop] at h2
    split at h2
    · simp at h2
    · split at h2
      · simp at h2
      · rename_i r hr
        have hrge := (hok _ _ _ hr).1
        rw [hlast1] at hrge
        split at h2
        · simp at h2
        · rename_i hne
          rw [hprev1] at hne
          simp only [beq_iff_eq, Option.some.injEq] at hne
          split at h2
          · rw [Prod.mk.injEq] at h2
            obtain ⟨he, -⟩ := h2
            obtain rfl := Option.some.inj he
            intro hcontra
            exact hne hcontra.symm
          · split at h2
            · rw [Prod.mk.injEq] at h2
              obtain ⟨he, -⟩ := h2
              obtain rfl := Option.some.inj he
              intro hcontra
              exact hne hcontra.symm
            · have hmono := searcherNextLoop_mono srch text hok _ _ m2 st2 h2
              simp only at hmono
              intro hcontra
              rw [Prod.mk.injEq] at hcontra
              obtain ⟨hc1, hc2⟩ := hcontra
              apply hne
              rw [Prod.mk.injEq]
              constructor <;> omega

/-- Witness for C5: the empty literal pattern produces a zero-width raw
match at offset 0 of the text a; after it is returned once, the repeat
guard makes the following call return null. -/
theorem c5_searcher_repeat_guard_witness :
    (searcherNext ⟨none, litEngine []⟩ ['a'] ⟨0, some (0, 0)⟩).1 = none := by
  have h := (c5_searcher_repeat_guard ⟨none, litEngine []⟩ ['a'] ⟨0, some (0, 0)⟩
    (litEngineOk [])).1 ⟨0, 0, [[]]⟩ (by rfl) (by rfl)
  exact h

/-- Claim C10: once the searcher has observed a raw match whose end equals
the text length, next returns null with the state unchanged, hence every
further call also returns null until reset; in particular a match returned
by next that ends exactly at the end of the text is the last one of the
scan, so no zero-width match at the end of the text can follow a non-empty
match ending there. -/
theorem c10_end_of_text_stops (srch : MSearcher) (text : List Char) (st : SState) :
    (∀ p l, st.prev = some (p, l) → p + l = text.length →
      searcherNext srch text st = (none, st)) ∧
    (∀ m st1, searcherNext srch text st = (some m, st1) →
      m.index + m.len = text.length →
      searcherNext srch text st1 = (none, st1)) := by
  have hstop : ∀ st0 : SState, (∀ p l, st0.prev = some (p, l) → p + l = text.length →
      searcherNext srch text st0 = (none, st0)) := by
    intro st0 p l hprev hsum
    have hfuel : 2 * text.length + 3 = (2 * text.length + 2) + 1 := rfl
    rw [searcherNext, hfuel, searcherNextLoop]
    rw [if_pos]
    rw [hprev]
    simp [hsum]
  constructor
  · exact hstop st
  · intro m st1 h1 hend
    obtain ⟨hprev1, -⟩ := searcherNextLoop_state srch text _ st m st1 h1
    exact hstop st1 m.index m.len hprev1 hend

/-- Witness for C10: after the literal match a on the one-character text a,
which ends at the end of the text, the next call returns null and leaves
the state unchanged. -/
theorem c10_end_of_text_stops_witness :
    searcherNext ⟨none, litEngine ['a']⟩ ['a'] ⟨1, some (0, 1)⟩ =
      (none, ⟨1, some (0, 1)⟩) := by
  have h := (c10_end_of_text_stops ⟨none, litEngine ['a']⟩ ['a']
    ⟨0, none⟩).2 ⟨0, 1, [['a']]⟩ ⟨1, some (0, 1)⟩ (by rfl) (by rfl)
  exact h

/-- The retried forward pass from (1,1) does not retry again. -/
theorem doFindNextMatchMultilineAux_one (model : Model) (srch : MSearcher) (cap : Bool) :
    doFindNextMatchMultilineAux model srch cap 1 ⟨1, 1⟩ =
      nextPassMultiline model srch cap ⟨1, 1⟩ := by
  rw [doFindNextMatchMultilineAux]
  cases nextPassMultiline model srch cap ⟨1, 1⟩ with
  | some r => rfl
  | none => simp

/-- The cyclic line loop of the forward search enumerated as findSome? over
the visited line numbers. -/
theorem nextLineByLineLoop_eq (model : Model) (srch : MSearcher) (cap : Bool)
    (lineCount startLineNumber : Nat) : ∀ remaining i,
    nextLineByLineLoop model srch cap lineCount startLineNumber i remaining =
      ((List.range remaining).map
        (fun j => (startLineNumber + (i + j) - 1) % lineCount + 1)).findSome?
        (fun ln => findFirstMatchInLine srch (model.getLineContent ln) ln 1 cap)
  | 0, i => by simp [nextLineByLineLoop]
  | remaining + 1, i => by
    rw [nextLineByLineLoop, List.range_succ_eq_map]
    rw [List.map_cons, List.findSome?_cons]
    simp only [Nat.add_zero]
    cases hfind : findFirstMatchInLine srch
        (model.getLineContent ((startLineNumber + i - 1) % lineCount + 1))
        ((startLineNumber + i - 1) % lineCount + 1) 1 cap with
    | some r => simp only [hfind]
    | none =>
      simp only [hfind]
      rw [nextLineByLineLoop_eq model srch cap lineCount startLineNumber remaining (i + 1),
        List.map_map]
      congr 1
      apply List.map_congr_left
      intro j hj
      simp only [Function.comp]
      congr 2
      omega

/-- Claim C3: findNextMatch scans forward from the starting position and
retries exactly once from the start of the buffer.  First conjunct
(multiline strategy): the result is the forward pass from the start
position, and when that pass fails it is the forward pass from (1,1)
unless the start already was (1,1), in which case it is null.  Second
conjunct (line-by-line strategy): the start line is scanned from the start
column, then the lines are visited cyclically through all line numbers.
Third conjunct: on a buffer whose only match lies entirely before the
starting position, the match is still returned after one wrap. -/
theorem c3_find_next_wraps_once (model : Model) (srch : MSearcher) (cap : Bool) :
    (∀ s : Pos, doFindNextMatchMultiline model srch cap s =
      match nextPassMultiline model srch cap s with
      | some r => some r
      | none =>
        if s.line ≠ 1 ∨ s.col ≠ 1 then nextPassMultiline model srch cap ⟨1, 1⟩
        else none) ∧
    (∀ s : Pos, doFindNextMatchLineByLine model srch cap s =
      match findFirstMatchInLine srch (model.getLineContent s.line) s.line s.col cap with
      | some r => some r
      | none =>
        ((List.range model.getLineCount).map
          (fun j => (s.line + j) % model.getLineCount + 1)).findSome?
          (fun ln => findFirstMatchInLine srch (model.getLineContent ln) ln 1 cap)) ∧
    (findNextMatchWithData ⟨[['b'], ['a']], EOL.lf⟩ ⟨litEngine ['a'], true, none, none⟩
      ⟨2, 2⟩ false = some ⟨⟨2, 1, 2, 2⟩, none⟩) := by
  refine ⟨?_, ?_, by rfl⟩
  · intro s
    rw [doFindNextMatchMultiline, doFindNextMatchMultilineAux]
    cases nextPassMultiline model srch cap s with
    | some r => rfl
    | none =>
      simp only
      by_cases hs : s.line ≠ 1 ∨ s.col ≠ 1
      · rw [if_pos hs, if_pos hs, doFindNextMatchMultilineAux_one]
      · rw [if_neg hs, if_neg hs]
  · intro s
    rw [doFindNextMatchLineByLine]
    cases hfind : findFirstMatchInLine srch (model.getLineContent s.line) s.line s.col cap with
    | some r => rfl
    | none =>
      simp only
      rw [nextLineByLineLoop_eq]
      congr 1
      apply List.map_congr_left
      intro j hj
      congr 2
      omega

/-- The retried backward pass from the end of the buffer does not retry
again. -/
theorem doFindPreviousMatchMultilineAux_one (model : Model) (srch : MSearcher) (cap : Bool) :
    doFindPreviousMatchMultilineAux model srch cap 1
        ⟨model.getLineCount, model.getLineMaxColumn model.getLineCount⟩ =
      prevPassMultiline model srch cap
        ⟨model.getLineCount, model.getLineMaxColumn model.getLineCount⟩ := by
  rw [doFindPreviousMatchMultilineAux]
  cases prevPassMultiline model srch cap
      ⟨model.getLineCount, model.getLineMaxColumn model.getLineCount⟩ with
  | some r => rfl
  | none => simp

/-- The backward cyclic line loop of the previous-match search enumerated
as findSome? over the visited line numbers. -/
theorem prevLineByLineLoop_eq (model : Model) (srch : MSearcher) (cap : Bool)
    (lineCount startLineNumber : Nat) : ∀ remaining i,
    prevLineByLineLoop model srch cap lineCount startLineNumber i remaining =
      ((List.range remaining).map
        (fun j => (lineCount + startLineNumber - (i + j) - 1) % lineCount + 1)).findSome?
        (fun ln => findLastMatchInLine srch (model.getLineContent ln) ln cap)
  | 0, i => by simp [prevLineByLineLoop]
  | remaining + 1, i => by
    rw [prevLineByLineLoop, List.range_succ_eq_map]
    rw [List.map_cons, List.findSome?_cons]
    simp only [Nat.add_zero]
    cases hfind : findLastMatchInLine srch
        (model.getLineContent ((lineCount + startLineNumber - i - 1) % lineCount + 1))
        ((lineCount + startLineNumber - i - 1) % lineCount + 1) cap with
    | some r => simp only [hfind]
    | none =>
      simp only [hfind]
      rw [prevLineByLineLoop_eq model srch cap lineCount startLineNumber remaining (i + 1),
        List.map_map]
      congr 1
      apply List.map_congr_left
      intro j hj
      simp only [Function.comp]
      congr 2
      omega

/-- Claim C4: findPreviousMatch wraps at most once from the end of the
buffer and returns null when both passes fail.  First conjunct (multiline
strategy): the result is the last element of the matches collected by
findMatches over the range from (1,1) to the start position under the
internal cap of 10 times 999, and when that collection is empty it is the
same collection over the whole buffer unless the start already was the end
of the buffer, in which case it is null.  Second conjunct (line-by-line
strategy): the rightmost accepted match of the start line truncated to
before the start column is returned if it exists, otherwise the remaining
lines are walked backward cyclically and the rightmost accepted match of
the first line that has one is returned. -/
theorem c4_find_previous_characterisation (model : Model) (srch : MSearcher) (cap : Bool) :
    (∀ s : Pos, doFindPreviousMatchMultiline model srch cap s =
      match (doFindMatchesMultiline model ⟨1, 1, s.line, s.col⟩ srch cap
          (10 * LIMIT_FIND_COUNT)).getLast? with
      | some r => some r
      | none =>
        if s.line ≠ model.getLineCount ∨ s.col ≠ model.getLineMaxColumn model.getLineCount then
          (doFindMatchesMultiline model
            ⟨1, 1, model.getLineCount, model.getLineMaxColumn model.getLineCount⟩ srch cap
            (10 * LIMIT_FIND_COUNT)).getLast?
        else none) ∧
    (∀ s : Pos, doFindPreviousMatchLineByLine model srch cap s =
      match findLastMatchInLine srch ((model.getLineContent s.line).take (s.col - 1))
          s.line cap with
      | some r => some r
      | none =>
        ((List.range model.getLineCount).map
          (fun j => (model.getLineCount + s.line - j - 2) % model.getLineCount + 1)).findSome?
          (fun ln => findLastMatchInLine srch (model.getLineContent ln) ln cap)) := by
  constructor
  · intro s
    rw [doFindPreviousMatchMultiline, doFindPreviousMatchMultilineAux]
    show (match prevPassMultiline model srch cap s with
      | some r => some r
      | none => _) = _
    cases hpass : prevPassMultiline model srch cap s with
    | some r =>
      rw [prevPassMultiline] at hpass
      rw [hpass]
    | none =>
      rw [prevPassMultiline] at hpass
      rw [hpass]
      simp only
      by_cases hs : s.line ≠ model.getLineCount ∨
          s.col ≠ model.getLineMaxColumn model.getLineCount
      · rw [if_pos hs, if_pos hs, doFindPreviousMatchMultilineAux_one, prevPassMultiline]
      · rw [if_neg hs, if_neg hs]
  · intro s
    rw [doFindPreviousMatchLineByLine]
    cases hfind : findLastMatchInLine srch ((model.getLineContent s.line).take (s.col - 1))
        s.line cap with
    | some r => rfl
    | none =>
      simp only
      rw [prevLineByLineLoop_eq]
      congr 1
      apply List.map_congr_left
      intro j hj
      congr 2
      omega

/-- Witness check for C4 at the spec example: on the buffer with the lines
foo bar and bar foo, searching the literal foo, findPreviousMatch from
(2,5) returns the match on line 1 and from (1,1) wraps to the match on
line 2. -/
theorem c4_find_previous_example :
    (findPreviousMatchWithData ⟨[['f','o','o',' ','b','a','r'], ['b','a','r',' ','f','o','o']],
        EOL.lf⟩ ⟨litEngine ['f','o','o'], false, none, some ['f','o','o']⟩ ⟨2, 5⟩ false =
      some ⟨⟨1, 1, 1, 4⟩, none⟩) ∧
    (findPreviousMatchWithData ⟨[['f','o','o',' ','b','a','r'], ['b','a','r',' ','f','o','o']],
        EOL.lf⟩ ⟨litEngine ['f','o','o'], false, none, some ['f','o','o']⟩ ⟨1, 1⟩ false =
      some ⟨⟨2, 5, 2, 8⟩, none⟩) := by
  constructor <;> rfl

/-- The multiline collection loop never grows past the limit once below it. -/
theorem doFindMatchesMultilineLoop_le (model : Model) (srch : MSearcher)
    (deltaOffset : Nat) (text : List Char) (cap : Bool) (limit : Nat) : ∀ fuel st acc,
    acc.length < limit →
    (doFindMatchesMultilineLoop model srch deltaOffset text cap limit fuel st acc).length ≤
      limit
  | 0, st, acc => fun h => Nat.le_of_lt h
  | fuel + 1, st, acc => by
    intro h
    rcases hnext : searcherNext srch text st with ⟨om, st1⟩
    cases om with
    | none =>
      rw [doFindMatchesMultilineLoop, hnext]
      exact Nat.le_of_lt h
    | some m =>
      rw [doFindMatchesMultilineLoop, hnext]
      simp only [List.length_append, List.length_cons, List.length_nil]
      by_cases hge : acc.length + (0 + 1) ≥ limit
      · rw [if_pos hge]
        simp only [List.length_append, List.length_cons, List.length_nil]
        omega
      · rw [if_neg hge]
        exact doFindMatchesMultilineLoop_le model srch deltaOffset text cap limit fuel st1 _
          (by simp; omega)

/-- The literal fast-path loop never grows past the limit once below it. -/
theorem simpleSearchLoop_le (ws : Option (Char → WordCharacterClass))
    (pat text : List Char) (ln delta limit : Nat) : ∀ fuel fromIndex acc,
    acc.length < limit →
    (simpleSearchLoop ws pat text ln delta limit fuel fromIndex acc).length ≤ limit
  | 0, fromIndex, acc => fun h => Nat.le_of_lt h
  | fuel + 1, fromIndex, acc => by
    intro h
    rw [simpleSearchLoop]
    cases hidx : indexOfFrom text pat fromIndex with
    | none => exact Nat.le_of_lt h
    | some i =>
      simp only
      split
      · simp only [List.length_append, List.length_cons, List.length_nil]
        by_cases hge : acc.length + (0 + 1) ≥ limit
        · rw [if_pos hge]
          simp only [List.length_append, List.length_cons, List.length_nil]
          omega
        · rw [if_neg hge]
          exact simpleSearchLoop_le ws pat text ln delta limit fuel _ _ (by simp; omega)
      · exact simpleSearchLoop_le ws pat text ln delta limit fuel _ _ h

/-- The per-line regex loop never grows past the limit once below it. -/
theorem regexSearchLoop_le (srch : MSearcher) (text : List Char)
    (ln delta : Nat) (cap : Bool) (limit : Nat) : ∀ fuel st acc,
    acc.length < limit →
    (regexSearchLoop srch text ln delta cap limit fuel st acc).length ≤ limit
  | 0, st, acc => fun h => Nat.le_of_lt h
  | fuel + 1, st, acc => by
    intro h
    rcases hnext : searcherNext srch text st with ⟨om, st1⟩
    cases om with
    | none =>
      rw [regexSearchLoop, hnext]
      exact Nat.le_of_lt h
    | some m =>
      rw [regexSearchLoop, hnext]
      simp only [List.length_append, List.length_cons, List.length_nil]
      by_cases hge : acc.length + (0 + 1) ≥ limit
      · rw [if_pos hge]
        simp only [List.length_append, List.length_cons, List.length_nil]
        omega
      · rw [if_neg hge]
        exact regexSearchLoop_le srch text ln delta cap limit fuel st1 _ (by simp; omega)

/-- The per-line search never grows past the limit once below it. -/
theorem findMatchesInLine_le (sd : SearchDataM) (text : List Char) (ln delta : Nat)
    (acc : List FindMatch) (cap : Bool) (limit : Nat) (h : acc.length < limit) :
    (findMatchesInLine sd text ln delta acc cap limit).length ≤ limit := by
  rw [findMatchesInLine.eq_def]
  split
  · exact simpleSearchLoop_le _ _ _ _ _ _ _ _ _ h
  · exact regexSearchLoop_le _ _ _ _ _ _ _ _ _ h

/-- The middle-lines loop never grows past the limit. -/
theorem doFindMatchesLineByLineMiddle_le (model : Model) (sd : SearchDataM) (cap : Bool)
    (limit : Nat) : ∀ remaining ln acc,
    acc.length ≤ limit →
    (doFindMatchesLineByLineMiddle model sd cap limit remaining ln acc).length ≤ limit
  | 0, ln, acc => fun h => h
  | remaining + 1, ln, acc => by
    intro h
    rw [doFindMatchesLineByLineMiddle]
    by_cases hlt : acc.length < limit
    · rw [if_pos hlt]
      exact doFindMatchesLineByLineMiddle_le model sd cap limit remaining _ _
        (findMatchesInLine_le sd _ _ _ _ _ _ hlt)
    · rw [if_neg hlt]
      exact h

/-- Claim C7 (amended): for every positive resultLimit, findMatches returns
at most resultLimit entries, in both the multiline and the line-by-line
strategies.  (For resultLimit = 0 the source pushes one match before the
counter test, see the counterexample.) -/
theorem c7_find_matches_bounded (model : Model) (sd : SearchDataM) (searchRange : Rng)
    (cap : Bool) (limit : Nat) (hlim : 1 ≤ limit) :
    (findMatchesWithData model sd searchRange cap limit).length ≤ limit := by
  rw [findMatchesWithData]
  split
  · rw [doFindMatchesMultiline]
    exact doFindMatchesMultilineLoop_le _ _ _ _ _ _ _ _ _ (by simpa using hlim)
  · rw [doFindMatchesLineByLine]
    split
    · exact findMatchesInLine_le _ _ _ _ _ _ _ (by simpa using hlim)
    · by_cases hlt : (doFindMatchesLineByLineMiddle model sd cap limit
          (searchRange.endLineNumber - 1 - searchRange.startLineNumber)
          (searchRange.startLineNumber + 1)
          (findMatchesInLine sd ((model.getLineContent searchRange.startLineNumber).drop
            (searchRange.startColumn - 1)) searchRange.startLineNumber
            (searchRange.startColumn - 1) [] cap limit)).length < limit
      · rw [if_pos hlt]
        exact findMatchesInLine_le _ _ _ _ _ _ _ hlt
      · rw [if_neg hlt]
        exact doFindMatchesLineByLineMiddle_le _ _ _ _ _ _ _
          (findMatchesInLine_le _ _ _ _ _ _ _ (by simpa using hlim))

/-- Witness for the amended C7 at a concrete input: with resultLimit 1 on a
buffer containing two occurrences, at most one match is returned. -/
theorem c7_find_matches_bounded_witness :
    (findMatchesWithData ⟨[['a', 'a']], EOL.lf⟩ ⟨litEngine ['a'], false, none, some ['a']⟩
      ⟨1, 1, 1, 3⟩ false 1).length ≤ 1 :=
  c7_find_matches_bounded ⟨[['a', 'a']], EOL.lf⟩ ⟨litEngine ['a'], false, none, some ['a']⟩
    ⟨1, 1, 1, 3⟩ false 1 (by decide)

/-- Counterexample to C7 as stated: with resultLimit 0 the source stores a
match and only then compares the counter with the limit, so one match is
returned, exceeding the limit. -/
theorem c7_counterexample_limit_zero :
    ¬ ((findMatchesWithData ⟨[['a']], EOL.lf⟩ ⟨litEngine ['a'], false, none, some ['a']⟩
      ⟨1, 1, 1, 2⟩ false 0).length ≤ 0) := by
  decide

/-- The index-based line-feed counting loop counts exactly the line feeds
of the corresponding slice. -/
theorem countLoop_eq_slice_count (l : List Char) : ∀ n s,
    (List.range n).countP (fun i => l.getD (i + s) nullChar == '\n') =
      ((l.drop s).take n).count '\n'
  | 0, s => by simp
  | n + 1, s => by
    rw [List.range_succ, List.countP_append, countLoop_eq_slice_count l n s,
      List.take_succ, List.count_append]
    congr 1
    rw [List.countP_cons, List.countP_nil]
    rw [List.getD_eq_getD_get?, List.get?_eq_getElem?, List.getElem?_drop, Nat.add_comm n s]
    cases hget : l[s + n]? with
    | none =>
      simp only [Option.getD_none, Option.toList_none, List.count_nil, Nat.zero_add]
      have hne : (nullChar == '\n') = false := by decide
      simp [hne]
    | some a =>
      by_cases ha : a = '\n' <;>
        simp [ha, List.count_cons]

/-- The loop of lines 151-157 counts the line feeds before the match. -/
theorem lineFeedCountBeforeMatch_eq (text : List Char) (matchIndex : Nat) :
    lineFeedCountBeforeMatch text matchIndex = (text.take matchIndex).count '\n' := by
  rw [lineFeedCountBeforeMatch]
  have h := countLoop_eq_slice_count text matchIndex 0
  simpa using h

/-- The loop of lines 165-171 counts the line feeds inside the match. -/
theorem lineFeedCountInMatch_eq (text : List Char) (matchIndex matchLen : Nat) :
    lineFeedCountInMatch text matchIndex matchLen =
      ((text.drop matchIndex).take matchLen).count '\n' := by
  rw [lineFeedCountInMatch]
  exact countLoop_eq_slice_count text matchLen matchIndex

/-- Claim C1: on a CRLF buffer the multiline strategy maps a match of the
LF-joined text back to buffer positions by adding one character to the
start offset per line feed before the match and, additionally for the end
offset, one character per line feed inside the matched text; searching the
regex a-newline-b over the CRLF buffer with lines a and b reports the range
(1,1)-(2,2). -/
theorem c1_multiline_crlf_compensation (model : Model) (h : model.eol = EOL.crlf)
    (deltaOffset : Nat) (text : List Char) (matchIndex matchLen : Nat) :
    (getMultilineMatchRange model deltaOffset text matchIndex matchLen =
      ⟨(model.getPositionAt
          (deltaOffset + matchIndex + (text.take matchIndex).count '\n')).line,
        (model.getPositionAt
          (deltaOffset + matchIndex + (text.take matchIndex).count '\n')).col,
        (model.getPositionAt
          (deltaOffset + matchIndex + (text.take matchIndex).count '\n' + matchLen +
            ((text.drop matchIndex).take matchLen).count '\n')).line,
        (model.getPositionAt
          (deltaOffset + matchIndex + (text.take matchIndex).count '\n' + matchLen +
            ((text.drop matchIndex).take matchLen).count '\n')).col⟩) ∧
    (findMatchesWithData ⟨[['a'], ['b']], EOL.crlf⟩
      ⟨litEngine ['a', '\n', 'b'], true, none, none⟩ ⟨1, 1, 2, 2⟩ false 100 =
      [⟨⟨1, 1, 2, 2⟩, none⟩]) := by
  constructor
  · rw [getMultilineMatchRange]
    simp only [h, if_pos, lineFeedCountBeforeMatch_eq, lineFeedCountInMatch_eq]
  · rfl

/-- Witness for C1 at the concrete CRLF buffer with lines a and b: the
match of a-newline-b at offset 0 and length 3 of the joined text maps to
the range (1,1)-(2,2). -/
theorem c1_multiline_crlf_compensation_witness :
    getMultilineMatchRange ⟨[['a'], ['b']], EOL.crlf⟩ 0 ['a', '\n', 'b'] 0 3 =
      ⟨1, 1, 2, 2⟩ := by
  have h := (c1_multiline_crlf_compensation ⟨[['a'], ['b']], EOL.crlf⟩ rfl 0
    ['a', '\n', 'b'] 0 3).1
  rw [h]
  rfl

/-- Lexicographic order on positions: a is at or before b. -/
def posLeq (a b : Pos) : Prop :=
  a.line < b.line ∨ (a.line = b.line ∧ a.col ≤ b.col)

instance (a b : Pos) : Decidable (posLeq a b) := by
  unfold posLeq
  infer_instance

/-- For a well-behaved engine a successful searcher step stays inside the
text. -/
theorem searcherNextLoop_inside (srch : MSearcher) (text : List Char)
    (hok : EngineOk srch.searchRegex) : ∀ fuel st m st1,
    searcherNextLoop srch text fuel st = (some m, st1) →
    m.index + m.len ≤ text.length
  | 0, st, m, st1 => by
    intro h
    simp [searcherNextLoop] at h
  | fuel + 1, st, m, st1 => by
    intro h
    rw [searcherNextLoop] at h
    split at h
    · simp at h
    · split at h
      · simp at h
      · rename_i m0 hm0
        split at h
        · simp at h
        · split at h
          · rw [Prod.mk.injEq] at h
            obtain ⟨h1, h2⟩ := h
            obtain rfl := Option.some.inj h1
            exact (hok _ _ _ hm0).2
          · split at h
            · rw [Prod.mk.injEq] at h
              obtain ⟨h1, h2⟩ := h
              obtain rfl := Option.some.inj h1
              exact (hok _ _ _ hm0).2
            · exact searcherNextLoop_inside srch text hok fuel _ m st1 h

/-- The range of a created match is the given range. -/
theorem createFindMatch_range (range : Rng) (raw : RawMatch) (cap : Bool) :
    (createFindMatch range raw cap).range = range := by
  rw [createFindMatch]
  split <;> rfl

/-- Every match kept by the last-match-in-line loop ends on the given line
at a column inside the scanned text. -/
theorem findLastMatchInLineLoop_shape (srch : MSearcher) (text : List Char)
    (ln : Nat) (cap : Bool) (hok : EngineOk srch.searchRegex) : ∀ fuel st best,
    (∀ r0, best = some r0 → r0.range.endLineNumber = ln ∧
      r0.range.endColumn ≤ text.length + 1) →
    ∀ r, findLastMatchInLineLoop srch text ln cap fuel st best = some r →
      r.range.endLineNumber = ln ∧ r.range.endColumn ≤ text.length + 1
  | 0, st, best => by
    intro hbest r h
    rw [findLastMatchInLineLoop] at h
    exact hbest r h
  | fuel + 1, st, best => by
    intro hbest r h
    rw [findLastMatchInLineLoop] at h
    rcases hnext : searcherNext srch text st with ⟨om, st1⟩
    rw [hnext] at h
    cases om with
    | none => exact hbest r h
    | some m =>
      refine findLastMatchInLineLoop_shape srch text ln cap hok fuel st1 _ ?_ r h
      intro r0 hr0
      obtain rfl := Option.some.inj hr0
      rw [createFindMatch_range]
      refine ⟨rfl, ?_⟩
      have hin := searcherNextLoop_inside srch text hok _ st m st1 hnext
      simp only
      omega

/-- The last-match-in-line scan over a text only reports matches ending on
its line inside the text. -/
theorem findLastMatchInLine_shape (srch : MSearcher) (text : List Char) (ln : Nat)
    (cap : Bool) (hok : EngineOk srch.searchRegex) (r : FindMatch)
    (h : findLastMatchInLine srch text ln cap = some r) :
    r.range.endLineNumber = ln ∧ r.range.endColumn ≤ text.length + 1 := by
  rw [findLastMatchInLine] at h
  exact findLastMatchInLineLoop_shape srch text ln cap hok _ _ none
    (fun r0 hr0 => by simp at hr0) r h

/-- Counterexample to C9 as stated: on the buffer with lines foo bar and
bar foo and the literal query foo, findNextMatch from (2,1) returns the
match M at (2,5)-(2,8), an earlier match (1,1)-(1,4) exists, yet
findPreviousMatch from the end position (2,8) of M returns M itself, whose
end (2,8) is not at or before the start (2,5) of M. -/
theorem c9_counterexample_returns_m_itself :
    (findNextMatchWithData
      ⟨[['f','o','o',' ','b','a','r'], ['b','a','r',' ','f','o','o']], EOL.lf⟩
      ⟨litEngine ['f','o','o'], false, none, some ['f','o','o']⟩ ⟨2, 1⟩ false =
      some ⟨⟨2, 5, 2, 8⟩, none⟩) ∧
    (findMatchesWithData
      ⟨[['f','o','o',' ','b','a','r'], ['b','a','r',' ','f','o','o']], EOL.lf⟩
      ⟨litEngine ['f','o','o'], false, none, some ['f','o','o']⟩ ⟨1, 1, 2, 8⟩ false 100 =
      [⟨⟨1, 1, 1, 4⟩, none⟩, ⟨⟨2, 5, 2, 8⟩, none⟩]) ∧
    (findPreviousMatchWithData
      ⟨[['f','o','o',' ','b','a','r'], ['b','a','r',' ','f','o','o']], EOL.lf⟩
      ⟨litEngine ['f','o','o'], false, none, some ['f','o','o']⟩ ⟨2, 8⟩ false =
      some ⟨⟨2, 5, 2, 8⟩, none⟩) ∧
    ¬ posLeq ⟨2, 8⟩ ⟨2, 5⟩ := by
  refine ⟨rfl, rfl, rfl, by decide⟩

/-- Claim C9 (amended): in the line-by-line strategy, whenever the start
line truncated to before the starting column contains an accepted match —
as it does when the query position is the end position of a match M of
that line, M itself lying in the truncated text — findPreviousMatch
returns exactly the rightmost such match, and that match ends at or before
the query position (it may be M itself; it need not end before the start
of M). -/
theorem c9_previous_no_drift_beyond_query (model : Model) (srch : MSearcher) (cap : Bool)
    (hok : EngineOk srch.searchRegex) (s : Pos) (r : FindMatch) (hcol : 1 ≤ s.col)
    (hfind : findLastMatchInLine srch ((model.getLineContent s.line).take (s.col - 1))
      s.line cap = some r) :
    doFindPreviousMatchLineByLine model srch cap s = some r ∧
      posLeq ⟨r.range.endLineNumber, r.range.endColumn⟩ s := by
  constructor
  · rw [doFindPreviousMatchLineByLine, hfind]
  · obtain ⟨hline, hcolle⟩ := findLastMatchInLine_shape srch _ s.line cap hok r hfind
    have hlen : ((model.getLineContent s.line).take (s.col - 1)).length ≤ s.col - 1 := by
      simp [List.length_take]
    right
    refine ⟨hline, ?_⟩
    show r.range.endColumn ≤ s.col
    omega

/-- Witness for the amended C9: from the end (2,8) of the match M at
(2,5)-(2,8), findPreviousMatch returns M itself, which ends at or before
(2,8). -/
theorem c9_previous_no_drift_beyond_query_witness :
    doFindPreviousMatchLineByLine
      ⟨[['f','o','o',' ','b','a','r'], ['b','a','r',' ','f','o','o']], EOL.lf⟩
      ⟨none, litEngine ['f','o','o']⟩ false ⟨2, 8⟩ = some ⟨⟨2, 5, 2, 8⟩, none⟩ ∧
    posLeq ⟨2, 8⟩ ⟨2, 8⟩ := by
  have h := c9_previous_no_drift_beyond_query
    ⟨[['f','o','o',' ','b','a','r'], ['b','a','r',' ','f','o','o']], EOL.lf⟩
    ⟨none, litEngine ['f','o','o']⟩ false (litEngineOk ['f','o','o']) ⟨2, 8⟩
    ⟨⟨2, 5, 2, 8⟩, none⟩ (by decide) (by rfl)
  exact ⟨h.1, h.2⟩

/-- A found occurrence lies at or after the from-index and inside the text. -/
theorem indexOfFrom_some_bounds (text pat : List Char) (start i : Nat)
    (h : indexOfFrom text pat start = some i) :
    start ≤ i ∧ i + pat.length ≤ text.length := by
  unfold indexOfFrom at h
  have hp := List.find?_some h
  rw [Bool.and_eq_true, decide_eq_true_iff] at hp
  obtain ⟨hle, hsub⟩ := hp
  unfold isSubAt at hsub
  rw [beq_iff_eq] at hsub
  have hlen := congrArg List.length hsub
  rw [List.length_take, List.length_drop] at hlen
  have hmem := List.mem_of_find?_eq_some h
  rw [List.mem_range] at hmem
  omega

/-- With no occurrence at or after the cursor, the literal searcher yields
nothing. -/
theorem searcherNext_lit_none (pat text : List Char) (st : SState)
    (hidx : indexOfFrom text pat st.lastIndex = none) :
    (searcherNext ⟨none, litEngine pat⟩ text st).1 = none := by
  have hfuel : 2 * text.length + 3 = (2 * text.length + 2) + 1 := rfl
  have hexec : (MSearcher.mk none (litEngine pat)).searchRegex.exec text st.lastIndex =
      none := by
    show Option.map (fun i => ({ index := i, len := pat.length, groups := [pat] } :
      RawMatch)) (indexOfFrom text pat st.lastIndex) = none
    rw [hidx]
    rfl
  rw [searcherNext, hfuel, searcherNextLoop]
  split
  · rfl
  · rw [hexec]

/-- With an occurrence at or after the cursor and a consistent previous
match, the literal searcher returns exactly that occurrence and advances
past it. -/
theorem searcherNext_lit_some (pat text : List Char) (st : SState) (i : Nat)
    (hpat : pat ≠ [])
    (hprev : st.prev = none ∨
      ∃ p, st.prev = some (p, pat.length) ∧ p + pat.length = st.lastIndex)
    (hidx : indexOfFrom text pat st.lastIndex = some i) :
    searcherNext ⟨none, litEngine pat⟩ text st =
      (some ⟨i, pat.length, [pat]⟩, ⟨i + pat.length, some (i, pat.length)⟩) := by
  have hpatlen : 1 ≤ pat.length := by
    cases pat with
    | nil => exact absurd rfl hpat
    | cons a l => simp
  obtain ⟨hle, hin⟩ := indexOfFrom_some_bounds text pat st.lastIndex i hidx
  have hfuel : 2 * text.length + 3 = (2 * text.length + 2) + 1 := rfl
  have hexec : (MSearcher.mk none (litEngine pat)).searchRegex.exec text st.lastIndex =
      some ⟨i, pat.length, [pat]⟩ := by
    show Option.map (fun i => ({ index := i, len := pat.length, groups := [pat] } :
      RawMatch)) (indexOfFrom text pat st.lastIndex) = some ⟨i, pat.length, [pat]⟩
    rw [hidx]
    rfl
  have hguard : ¬((match st.prev with
      | some (p, l) => p + l == text.length
      | none => false) = true) := by
    rcases hprev with h | ⟨p, hp, hsum⟩
    · rw [h]
      simp
    · rw [hp]
      intro hcontra
      rw [beq_iff_eq] at hcontra
      omega
  have hrep : (st.prev == some (i, pat.length)) = false := by
    rcases hprev with h | ⟨p, hp, hsum⟩
    · rw [h]
      rfl
    · rw [hp]
      simp only [beq_eq_false_iff_ne, ne_eq, Option.some.injEq, Prod.mk.injEq, not_and]
      intro hpi
      omega
  rw [searcherNext, hfuel, searcherNextLoop, if_neg hguard, hexec]
  simp only [hrep]
  rfl

/-- Bisimulation between the literal fast path and the regex scanning path
over the literal engine: starting from the same cursor (and a previous
match consistent with the cursor), both loops produce the same results. -/
theorem simple_regex_bisim (pat text : List Char) (hpat : pat ≠ [])
    (ln delta limit : Nat) : ∀ fuel fromIndex acc (st : SState),
    st.lastIndex = fromIndex →
    (st.prev = none ∨
      ∃ p, st.prev = some (p, pat.length) ∧ p + pat.length = st.lastIndex) →
    simpleSearchLoop none pat text ln delta limit fuel fromIndex acc =
      regexSearchLoop ⟨none, litEngine pat⟩ text ln delta false limit fuel st acc
  | 0, fromIndex, acc, st => by
    intro hlast hprev
    rfl
  | fuel + 1, fromIndex, acc, st => by
    intro hlast hprev
    cases hidx : indexOfFrom text pat fromIndex with
    | none =>
      rcases hval : searcherNext ⟨none, litEngine pat⟩ text st with ⟨om, stx⟩
      have h1 := searcherNext_lit_none pat text st (by rw [hlast]; exact hidx)
      rw [hval] at h1
      simp only at h1
      subst h1
      rw [simpleSearchLoop, regexSearchLoop, hidx, hval]
    | some i =>
      have hsn := searcherNext_lit_some pat text st i hpat hprev
        (by rw [hlast]; exact hidx)
      have hcreate : createFindMatch
          ⟨ln, i + 1 + delta, ln, i + 1 + pat.length + delta⟩
          (⟨i, pat.length, [pat]⟩ : RawMatch) false =
          (⟨⟨ln, i + 1 + delta, ln, i + 1 + pat.length + delta⟩, none⟩ : FindMatch) := rfl
      rw [simpleSearchLoop, regexSearchLoop, hidx, hsn]
      simp only [hcreate, if_true]
      by_cases hge : (acc ++ [(⟨⟨ln, i + 1 + delta, ln, i + 1 + pat.length + delta⟩,
          none⟩ : FindMatch)]).length ≥ limit
      · rw [if_pos hge, if_pos hge]
      · rw [if_neg hge, if_neg hge]
        exact simple_regex_bisim pat text hpat ln delta limit fuel (i + pat.length) _
          ⟨i + pat.length, some (i, pat.length)⟩ rfl (Or.inr ⟨i, rfl, rfl⟩)

/-- Per line, the literal fast path and the regex path over the literal
engine return the same result sequence. -/
theorem findMatchesInLine_paths_eq (pat : List Char) (hpat : pat ≠ []) (text : List Char)
    (ln delta : Nat) (acc : List FindMatch) (limit : Nat) :
    findMatchesInLine ⟨litEngine pat, false, none, some pat⟩ text ln delta acc false limit =
      findMatchesInLine ⟨litEngine pat, false, none, none⟩ text ln delta acc false limit := by
  show simpleSearchLoop none pat text ln delta limit (text.length + limit + 2) 0 acc =
    regexSearchLoop ⟨none, litEngine pat⟩ text ln delta false limit
      (text.length + limit + 2) (searcherReset 0) acc
  exact simple_regex_bisim pat text hpat ln delta limit (text.length + limit + 2) 0 acc
    (searcherReset 0) rfl (Or.inl rfl)

/-- The middle-lines loop is insensitive to the choice between the two
paths. -/
theorem doFindMatchesLineByLineMiddle_paths_eq (model : Model) (pat : List Char)
    (hpat : pat ≠ []) (limit : Nat) : ∀ k ln acc,
    doFindMatchesLineByLineMiddle model ⟨litEngine pat, false, none, some pat⟩ false limit
      k ln acc =
    doFindMatchesLineByLineMiddle model ⟨litEngine pat, false, none, none⟩ false limit
      k ln acc
  | 0, ln, acc => rfl
  | k + 1, ln, acc => by
    rw [doFindMatchesLineByLineMiddle, doFindMatchesLineByLineMiddle]
    by_cases hlt : acc.length < limit
    · rw [if_pos hlt, if_pos hlt, findMatchesInLine_paths_eq pat hpat]
      exact doFindMatchesLineByLineMiddle_paths_eq model pat hpat limit k (ln + 1) _
    · rw [if_neg hlt, if_neg hlt]

/-- The whole line-by-line search is insensitive to the choice between the
two paths. -/
theorem doFindMatchesLineByLine_paths_eq (model : Model) (searchRange : Rng)
    (pat : List Char) (hpat : pat ≠ []) (limit : Nat) :
    doFindMatchesLineByLine model searchRange ⟨litEngine pat, false, none, some pat⟩
      false limit =
    doFindMatchesLineByLine model searchRange ⟨litEngine pat, false, none, none⟩
      false limit := by
  rw [doFindMatchesLineByLine, doFindMatchesLineByLine]
  by_cases hsing : searchRange.startLineNumber = searchRange.endLineNumber
  · rw [if_pos hsing, if_pos hsing, findMatchesInLine_paths_eq pat hpat]
  · rw [if_neg hsing, if_neg hsing]
    simp only [findMatchesInLine_paths_eq pat hpat,
      doFindMatchesLineByLineMiddle_paths_eq model pat hpat limit]

/-- Claim C8: for a non-regex, non-multiline pattern with matchCase true,
the compiler marks the literal fast path usable (first conjunct); for an
empty separator set, the literal fast path — exact non-overlapping
left-to-right indexOf scanning stepping by the pattern length — produces
exactly the result sequence of the regex scanning path over the literal
engine, per line (second conjunct) and for findMatches over any range
(third conjunct). -/
theorem c8_literal_fast_path_eq (pat : List Char) (hpat : pat ≠ []) :
    (∀ s p, parseSearchRequest s false true = some p → s.contains '\n' = false →
      p.canUseSimpleSearch = true) ∧
    (∀ text ln delta acc limit,
      findMatchesInLine ⟨litEngine pat, false, none, some pat⟩ text ln delta acc
        false limit =
      findMatchesInLine ⟨litEngine pat, false, none, none⟩ text ln delta acc
        false limit) ∧
    (∀ model searchRange limit,
      findMatchesWithData model ⟨litEngine pat, false, none, some pat⟩ searchRange
        false limit =
      findMatchesWithData model ⟨litEngine pat, false, none, none⟩ searchRange
        false limit) := by
  refine ⟨?_, fun text ln delta acc limit =>
      findMatchesInLine_paths_eq pat hpat text ln delta acc limit,
    fun model searchRange limit => ?_⟩
  · intro s p hp hnl
    rw [parseSearchRequest] at hp
    by_cases hs : s = []
    · rw [if_pos hs] at hp
      exact absurd hp (by simp)
    · rw [if_neg hs] at hp
      simp only [Option.some.injEq] at hp
      have h2 := congrArg ParsedSearch.canUseSimpleSearch hp
      have hnl2 : ('\n' : Char) ∉ s := by simpa using hnl
      rw [← h2]
      simp [hnl2]
  · show doFindMatchesLineByLine model searchRange
      ⟨litEngine pat, false, none, some pat⟩ false limit = _
    rw [doFindMatchesLineByLine_paths_eq model searchRange pat hpat limit]
    rfl

/-- Witness for C8 at a concrete input: on the two-line foo-bar buffer the
fast path and the regex path of findMatches agree, and the compiler marks
the fast path usable for the pattern foo with matchCase true. -/
theorem c8_literal_fast_path_eq_witness :
    (findMatchesWithData
      ⟨[['f','o','o',' ','b','a','r'], ['b','a','r',' ','f','o','o']], EOL.lf⟩
      ⟨litEngine ['f','o','o'], false, none, some ['f','o','o']⟩ ⟨1, 1, 2, 8⟩ false 100 =
     findMatchesWithData
      ⟨[['f','o','o',' ','b','a','r'], ['b','a','r',' ','f','o','o']], EOL.lf⟩
      ⟨litEngine ['f','o','o'], false, none, none⟩ ⟨1, 1, 2, 8⟩ false 100) ∧
    (⟨false, true⟩ : ParsedSearch).canUseSimpleSearch = true := by
  constructor
  · exact (c8_literal_fast_path_eq ['f','o','o'] (by decide)).2.2
      ⟨[['f','o','o',' ','b','a','r'], ['b','a','r',' ','f','o','o']], EOL.lf⟩
      ⟨1, 1, 2, 8⟩ 100
  · exact (c8_literal_fast_path_eq ['f','o','o'] (by decide)).1
      ['f','o','o'] ⟨false, true⟩ (by rfl) (by rfl)

end VST
